import Mathlib

/-!
Verification of the rubiks_trainer core: move vocabulary (`Movement`),
algorithm-set parsing (`AlgSet`), the catalog tree (`AlgEntry`), the
identifier-assigning walks that build the selection map, scramble
generation (`get_scramble`) and the Setup/Train page transition
(`handle_activate`).  Each definition is a shallow embedding of the
corresponding item in `src/db.rs` / `src/app.rs`; randomness is made
explicit by threading a choice index `k` (the chosen element is
`pool[k % pool.length]`), and a Rust `unwrap` panic is modelled as
`Option.none`.
-/

/-- The move vocabulary of `db.rs` (`enum Movement`): seven faces/axes in
normal, inverse (`P` suffix) and double (`2` suffix) form. -/
inductive Movement where
  | R | U | F | L | B | X | Y
  | RP | UP | FP | LP | BP | XP | YP
  | R2 | U2 | F2 | L2 | B2 | X2 | Y2
deriving DecidableEq

namespace Movement

/-- `Movement::inv` from `db.rs`: swaps normal and inverse forms, fixes
double moves. -/
def inv : Movement → Movement
  | R => RP
  | U => UP
  | F => FP
  | L => LP
  | B => BP
  | X => XP
  | Y => YP
  | RP => R
  | UP => U
  | FP => F
  | LP => L
  | BP => B
  | XP => X
  | YP => Y
  | R2 => R2
  | U2 => U2
  | F2 => F2
  | L2 => L2
  | B2 => B2
  | X2 => X2
  | Y2 => Y2

/-- `Movement::from_text` from `db.rs`: the closed token vocabulary,
including the apostrophe-suffixed spellings of double moves, which map to
the same double move as the plain spelling. -/
def from_text : String → Option Movement
  | "R" => some R
  | "U" => some U
  | "F" => some F
  | "L" => some L
  | "B" => some B
  | "x" => some X
  | "y" => some Y
  | "R'" => some RP
  | "U'" => some UP
  | "F'" => some FP
  | "L'" => some LP
  | "B'" => some BP
  | "x'" => some XP
  | "y'" => some YP
  | "R2" => some R2
  | "U2" => some U2
  | "F2" => some F2
  | "L2" => some L2
  | "B2" => some B2
  | "x2" => some X2
  | "y2" => some Y2
  | "R2'" => some R2
  | "U2'" => some U2
  | "F2'" => some F2
  | "L2'" => some L2
  | "B2'" => some B2
  | "x2'" => some X2
  | "y2'" => some Y2
  | _ => none

/-- `Movement::as_text` from `db.rs`: the canonical rendering of each
move. -/
def as_text : Movement → String
  | R => "R"
  | U => "U"
  | F => "F"
  | L => "L"
  | B => "B"
  | X => "x"
  | Y => "y"
  | RP => "R'"
  | UP => "U'"
  | FP => "F'"
  | LP => "L'"
  | BP => "B'"
  | XP => "x'"
  | YP => "y'"
  | R2 => "R2"
  | U2 => "U2"
  | F2 => "F2"
  | L2 => "L2"
  | B2 => "B2"
  | X2 => "x2"
  | Y2 => "y2"

end Movement

/-- `enum RubiksError` from `db.rs`; the payload of `IOError` (an
`std::io::Error`) carries no information relevant to the core. -/
inductive RubiksError where
  | IOError
  | InvalidMovement (token : String)
deriving DecidableEq

/-- `struct AlgSet` from `db.rs`. -/
structure AlgSet where
  name : String
  algs : List (List Movement)
  enabled : Bool
deriving DecidableEq

/-- Rust's `str::split(sep)` for a one-character separator, on the
character list: splits at every occurrence of `sep`, keeping empty
pieces (so the result is always non-empty). -/
def splitChar (sep : Char) : List Char → List (List Char)
  | [] => [[]]
  | c :: rest =>
      if c = sep then [] :: splitChar sep rest
      else
        match splitChar sep rest with
        | [] => [[c]]
        | t :: ts => (c :: t) :: ts

/-- The token loop of `AlgSet::parse_scramble`: parse each token with
`Movement::from_text`, failing with `InvalidMovement` at the first token
outside the vocabulary. -/
def parse_tokens : List (List Char) → Except RubiksError (List Movement)
  | [] => .ok []
  | tk :: rest =>
      match Movement.from_text (String.mk tk) with
      | some m => (parse_tokens rest).map (fun ms => m :: ms)
      | none => .error (.InvalidMovement (String.mk tk))

/-- `AlgSet::parse_scramble` from `db.rs`: drop parenthesis characters,
split on single spaces, discard empty tokens, then parse every remaining
token. -/
def AlgSet.parse_scramble (text : String) : Except RubiksError (List Movement) :=
  let chars := text.toList.filter (fun c => c ≠ '(' ∧ c ≠ ')')
  let tokens := (splitChar ' ' chars).filter (fun tk => 0 < tk.length)
  parse_tokens tokens

/-- The apostrophe normalization applied per character in
`AlgSet::load_from`: the non-ASCII right single quotation mark becomes
the ASCII apostrophe. -/
def normalizeChar (c : Char) : Char :=
  if c = '’' then '\'' else c

/-- The per-line preprocessing of `AlgSet::load_from`: keep the part of
the line before the first `#` (`line.split(s)` at `#`, first piece), then
normalize apostrophes. -/
def strip_line (line : String) : String :=
  String.mk ((line.toList.takeWhile (fun c => c ≠ '#')).map normalizeChar)

/-- The whitespace test of `AlgSet::load_from`: a line is skipped when
every character is a space (only `' '` counts). -/
def lineIsBlank (line : String) : Bool :=
  line.toList.all (fun c => c = ' ')

/-- The per-line composite operation of `AlgSet::load_from` (the spec's
`AlgorithmSet.parse_line`): strip the `#`-led comment, normalize
apostrophes, then run `AlgSet::parse_scramble`. -/
def AlgSet.parse_line (line : String) : Except RubiksError (List Movement) :=
  AlgSet.parse_scramble (strip_line line)

/-- Drop one trailing carriage return, as Rust's `str::lines` does on
each line. -/
def stripCR (s : String) : String :=
  String.mk (if s.toList.getLast? = some '\r' then s.toList.dropLast else s.toList)

/-- Rust's `str::lines`: split on newline, drop the empty piece produced
by a trailing newline, strip one trailing carriage return per line. -/
def rustLines (s : String) : List String :=
  let parts := splitChar '\n' s.toList
  let parts := if parts.getLast? = some [] then parts.dropLast else parts
  parts.map (fun l => stripCR (String.mk l))

/-- The line loop of `AlgSet::load_from`: preprocess each line with
`strip_line`, skip it when blank, otherwise parse it and collect the
resulting algorithm (the whole load fails on the first parse error). -/
def load_lines : List String → Except RubiksError (List (List Movement))
  | [] => .ok []
  | line :: rest =>
      let line := strip_line line
      if lineIsBlank line then load_lines rest
      else
        match AlgSet.parse_scramble line with
        | .error e => .error e
        | .ok s =>
            match load_lines rest with
            | .error e => .error e
            | .ok tail => .ok (s :: tail)

/-- The pure part of `AlgSet::load_from` (file reading is out of scope):
parse the file content line by line and package the result with
`enabled := true`. -/
def AlgSet.load_from_text (name text : String) : Except RubiksError AlgSet :=
  match load_lines (rustLines text) with
  | .error e => .error e
  | .ok algs => .ok { name := name, algs := algs, enabled := true }

/-- Claim C6: for every move, the inverse is an involution, and each of
the seven double moves is its own inverse (`Movement::inv`). -/
theorem claim_C6_inverse_involution :
    (∀ m : Movement, m.inv.inv = m) ∧
    (Movement.R2.inv = Movement.R2 ∧ Movement.U2.inv = Movement.U2 ∧
     Movement.F2.inv = Movement.F2 ∧ Movement.L2.inv = Movement.L2 ∧
     Movement.B2.inv = Movement.B2 ∧ Movement.X2.inv = Movement.X2 ∧
     Movement.Y2.inv = Movement.Y2) := by
  constructor
  · intro m
    cases m <;> rfl
  · exact ⟨rfl, rfl, rfl, rfl, rfl, rfl, rfl⟩

/-- Claim C7: `Movement::from_text` accepts the apostrophe-suffixed
spelling of every double-move token and maps it to the same move as the
plain double token. -/
theorem claim_C7_double_prime_spelling :
    (Movement.from_text "R2'" = Movement.from_text "R2" ∧
     Movement.from_text "R2" = some Movement.R2) ∧
    (Movement.from_text "U2'" = Movement.from_text "U2" ∧
     Movement.from_text "U2" = some Movement.U2) ∧
    (Movement.from_text "F2'" = Movement.from_text "F2" ∧
     Movement.from_text "F2" = some Movement.F2) ∧
    (Movement.from_text "L2'" = Movement.from_text "L2" ∧
     Movement.from_text "L2" = some Movement.L2) ∧
    (Movement.from_text "B2'" = Movement.from_text "B2" ∧
     Movement.from_text "B2" = some Movement.B2) ∧
    (Movement.from_text "x2'" = Movement.from_text "x2" ∧
     Movement.from_text "x2" = some Movement.X2) ∧
    (Movement.from_text "y2'" = Movement.from_text "y2" ∧
     Movement.from_text "y2" = some Movement.Y2) :=
  ⟨⟨rfl, rfl⟩, ⟨rfl, rfl⟩, ⟨rfl, rfl⟩, ⟨rfl, rfl⟩, ⟨rfl, rfl⟩, ⟨rfl, rfl⟩, ⟨rfl, rfl⟩⟩

mutual

/-- `enum AlgEntry` from `db.rs`: a Group holds a name and child entries,
a leaf (`Algs`) holds a name and an `AlgSet`.  The child vector is
embedded as the mutually defined list `AlgEntryList`. -/
inductive AlgEntry where
  | Group (name : String) (children : AlgEntryList)
  | Algs (name : String) (set : AlgSet)

/-- The child list of `AlgEntry.Group` (`Vec<AlgEntry>` in `db.rs`). -/
inductive AlgEntryList where
  | nil
  | cons (e : AlgEntry) (rest : AlgEntryList)

end

/-- `struct AlgInfo` from `app.rs`: an `AlgSet` reference plus the
authoritative enabled flag of the selection map. -/
structure AlgInfo where
  algset : AlgSet
  enabled : Bool
deriving DecidableEq

/-- The selection map of `app.rs` (`HashMap<Identifier, AlgInfo>`),
embedded as an association list in insertion order; the walks below only
ever insert fresh keys. -/
abbrev AlgsetMap := List (Nat × AlgInfo)

/-- `START_BUTTON_ID` from `app.rs`. -/
def START_BUTTON_ID : Nat := 6969

/-- The `parse_entries` walk inside `App::new` (`app.rs`): for a Group,
bump the counter and recurse into the children; for a leaf, insert an
`AlgInfo` with `enabled := false` at the current counter value; after
each entry, bump the counter once more.  Returns the inserted entries in
insertion order together with the final counter value. -/
def parse_entries_new : AlgEntryList → Nat → AlgsetMap × Nat
  | .nil, id => ([], id)
  | .cons (.Group _ children) rest, id =>
      let r1 := parse_entries_new children (id + 1)
      let r2 := parse_entries_new rest (r1.2 + 1)
      (r1.1 ++ r2.1, r2.2)
  | .cons (.Algs _ algs) rest, id =>
      let r2 := parse_entries_new rest (id + 1)
      ((id, { algset := algs, enabled := false }) :: r2.1, r2.2)

/-- The `parse_entries` walk inside `AppPage::draw` (`app.rs`), projected
to the identifier it gives each leaf `TreeItem` (a Group's `TreeItem`
takes the counter value at encounter, before the bump; rendering itself
is out of scope).  Returns the (identifier, set) pairs of the leaves in
visit order together with the final counter value. -/
def parse_entries_draw : AlgEntryList → Nat → List (Nat × AlgSet) × Nat
  | .nil, id => ([], id)
  | .cons (.Group _ children) rest, id =>
      let r1 := parse_entries_draw children (id + 1)
      let r2 := parse_entries_draw rest (r1.2 + 1)
      (r1.1 ++ r2.1, r2.2)
  | .cons (.Algs _ algs) rest, id =>
      let r2 := parse_entries_draw rest (id + 1)
      ((id, algs) :: r2.1, r2.2)

/-- Total number of nodes (Groups and leaves alike) of an entry list, as
counted by the words of the identifier claim in the spec. -/
def totalNodes : AlgEntryList → Nat
  | .nil => 0
  | .cons (.Group _ children) rest => 1 + totalNodes children + totalNodes rest
  | .cons (.Algs _ _) rest => 1 + totalNodes rest

/-- Total number of Group nodes of an entry list. -/
def totalGroups : AlgEntryList → Nat
  | .nil => 0
  | .cons (.Group _ children) rest => 1 + totalGroups children + totalGroups rest
  | .cons (.Algs _ _) rest => totalGroups rest

/-- The rendering loop of `get_scramble` (`app.rs`): walk the chosen
algorithm in reverse, emit the inverse of each move, and append a
separating space after every move but the last. -/
def render_scramble (movements : List Movement) : String :=
  (movements.reverse.enum).foldl
    (fun text p =>
      let text := text ++ p.2.inv.as_text
      if p.1 < movements.length - 1 then text ++ " " else text)
    ""

/-- `get_scramble` from `app.rs`: flatten all algorithms of all given
sets into one pool, pick one at random, and render it.  The random
choice is made explicit as index `k % pool.length`; `choose(..).unwrap()`
on an empty pool panics, modelled as `none`. -/
def get_scramble (algsets : List AlgSet) (k : Nat) : Option String :=
  let pool := algsets.flatMap (fun s => s.algs)
  if pool.isEmpty then none
  else some (render_scramble (pool.getD (k % pool.length) []))

/-- `enum AppPage` from `app.rs`; the tree-view cursor state and the db
reference of `Setup` are rendering/input concerns, out of scope. -/
inductive AppPage where
  | Setup (algset_map : AlgsetMap)
  | Train (algs : List AlgSet) (scramble : String)
deriving DecidableEq

/-- `algset_map.get(identifier)` on the association list. -/
def lookupInfo (m : AlgsetMap) (id : Nat) : Option AlgInfo :=
  (m.find? (fun p => p.1 = id)).map (fun p => p.2)

/-- The leaf-toggle of `AppPage::handle_key`: flip the enabled flag of
the entry with the given identifier. -/
def toggleEntry (m : AlgsetMap) (id : Nat) : AlgsetMap :=
  m.map (fun p => if p.1 = id then (p.1, { p.2 with enabled := !p.2.enabled }) else p)

/-- `algset_map.values().filter(enabled).map(algset)` from
`AppPage::handle_key`, in the list's order. -/
def enabledSets (m : AlgsetMap) : List AlgSet :=
  ((m.map (fun p => p.2)).filter (fun i => i.enabled)).map (fun i => i.algset)

/-- The Enter/space arm of `AppPage::handle_key` (`app.rs`), given the
identifier currently selected in the tree view and the choice index `k`
for `get_scramble`: toggle a leaf if the identifier has a map entry;
otherwise, on the Start identifier, snapshot the enabled sets and enter
`Train` when at least one set is enabled; in `Train`, regenerate the
scramble.  A panic inside `get_scramble` propagates as `none`. -/
def handle_activate (page : AppPage) (identifier : Nat) (k : Nat) : Option AppPage :=
  match page with
  | .Setup m =>
      match lookupInfo m identifier with
      | some _ => some (.Setup (toggleEntry m identifier))
      | none =>
          if identifier = START_BUTTON_ID then
            let algs := enabledSets m
            if 0 < algs.length then
              match get_scramble algs k with
              | some scramble => some (.Train algs scramble)
              | none => none
            else some (.Setup m)
          else some (.Setup m)
  | .Train algs _ =>
      match get_scramble algs k with
      | some scramble => some (.Train algs scramble)
      | none => none

/-- A one-algorithm set used as a concrete fixture. -/
def sampleSet : AlgSet :=
  { name := "a", algs := [[Movement.R, Movement.U]], enabled := true }

/-- A one-Group, one-leaf catalog used as a concrete fixture. -/
def sampleTree : AlgEntryList :=
  .cons (.Group "g" (.cons (.Algs "a" sampleSet) .nil)) .nil

/-- A set with zero algorithms, as produced by loading an empty file. -/
def emptySet : AlgSet :=
  { name := "empty", algs := [], enabled := true }

/-- A selection map whose single entry is enabled but holds a set with
zero algorithms. -/
def emptyPoolMap : AlgsetMap :=
  [(0, { algset := emptySet, enabled := true })]

/-- Every entry the `App::new` walk inserts has `enabled := false`. -/
theorem parse_entries_new_enabled_false :
    ∀ (l : AlgEntryList) (id0 : Nat) (p : Nat × AlgInfo),
      p ∈ (parse_entries_new l id0).1 → p.2.enabled = false
  | .nil, _, _ => by intro h; simp [parse_entries_new] at h
  | .cons (.Group _ children) rest, id0, p => by
      intro h
      simp only [parse_entries_new, List.mem_append] at h
      rcases h with h | h
      · exact parse_entries_new_enabled_false children (id0 + 1) p h
      · exact parse_entries_new_enabled_false rest
          ((parse_entries_new children (id0 + 1)).2 + 1) p h
  | .cons (.Algs _ algs) rest, id0, p => by
      intro h
      simp only [parse_entries_new, List.mem_cons] at h
      rcases h with h | h
      · rw [h]
      · exact parse_entries_new_enabled_false rest (id0 + 1) p h

/-- The final counter of the `App::new` walk: one unit per node plus one
extra unit per Group. -/
theorem parse_entries_new_final_counter :
    ∀ (l : AlgEntryList) (id0 : Nat),
      (parse_entries_new l id0).2 = id0 + totalNodes l + totalGroups l
  | .nil, id0 => by simp [parse_entries_new, totalNodes, totalGroups]
  | .cons (.Group _ children) rest, id0 => by
      have h1 := parse_entries_new_final_counter children (id0 + 1)
      have h2 := parse_entries_new_final_counter rest
        ((parse_entries_new children (id0 + 1)).2 + 1)
      simp only [parse_entries_new, totalNodes, totalGroups]
      omega
  | .cons (.Algs _ algs) rest, id0 => by
      have h2 := parse_entries_new_final_counter rest (id0 + 1)
      simp only [parse_entries_new, totalNodes, totalGroups]
      omega

/-- The `App::new` walk and the `AppPage::draw` walk agree: same leaf
identifiers bound to the same sets, in the same order, and the same
final counter. -/
theorem parse_entries_walks_agree :
    ∀ (l : AlgEntryList) (id0 : Nat),
      ((parse_entries_new l id0).1.map (fun p => (p.1, p.2.algset)) =
        (parse_entries_draw l id0).1) ∧
      (parse_entries_new l id0).2 = (parse_entries_draw l id0).2
  | .nil, id0 => by simp [parse_entries_new, parse_entries_draw]
  | .cons (.Group _ children) rest, id0 => by
      have h1 := parse_entries_walks_agree children (id0 + 1)
      have h2 := parse_entries_walks_agree rest
        ((parse_entries_new children (id0 + 1)).2 + 1)
      have h2b := parse_entries_walks_agree rest
        ((parse_entries_draw children (id0 + 1)).2 + 1)
      simp only [parse_entries_new, parse_entries_draw, List.map_append]
      rw [← h1.2]
      exact ⟨by rw [h1.1, h2.1], h2.2⟩
  | .cons (.Algs _ algs) rest, id0 => by
      have h2 := parse_entries_walks_agree rest (id0 + 1)
      simp only [parse_entries_new, parse_entries_draw, List.map_cons]
      exact ⟨by rw [h2.1], h2.2⟩

/-- Claim C3 (counterexample): on the one-Group, one-leaf catalog the
walk of `App::new`, started at 0, consumes three identifiers while the
tree has only two nodes — a Group consumes more than one identifier, so
"identifiers consumed = number of nodes" fails. -/
theorem claim_C3_counterexample :
    (parse_entries_new sampleTree 0).2 ≠ totalNodes sampleTree := by decide

/-- Claim C3 (amended): in the walk of `App::new`, a leaf consumes
exactly one identifier and a Group consumes two (its own identifier,
which precedes its children's, plus one more after its children), so the
identifiers consumed number `totalNodes + totalGroups`, not
`totalNodes`. -/
theorem claim_C3_amended_id_consumption :
    ∀ (l : AlgEntryList) (id0 : Nat),
      (parse_entries_new l id0).2 = id0 + totalNodes l + totalGroups l :=
  parse_entries_new_final_counter

/-- Claim C9: the selection map built by `App::new` marks every leaf
disabled, even though `AlgSet::load_from` constructs every set with
`enabled = true`. -/
theorem claim_C9_initial_selection_disabled :
    (∀ (l : AlgEntryList) (id0 : Nat) (p : Nat × AlgInfo),
        p ∈ (parse_entries_new l id0).1 → p.2.enabled = false) ∧
    (∀ (name text : String) (s : AlgSet),
        AlgSet.load_from_text name text = .ok s → s.enabled = true) := by
  refine ⟨parse_entries_new_enabled_false, ?_⟩
  intro name text s h
  unfold AlgSet.load_from_text at h
  cases hl : load_lines (rustLines text) with
  | error e => rw [hl] at h; exact absurd h (by simp)
  | ok algs =>
      rw [hl] at h
      simp only [Except.ok.injEq] at h
      rw [← h]

/-- Claim C10: the identifier-assigning walk of `App::new` and the one
of `AppPage::draw` assign the same identifier to each leaf (same pairs,
same order, same final counter), so activating a rendered leaf's
identifier toggles exactly that leaf's map entry. -/
theorem claim_C10_walks_assign_same_ids :
    ∀ (l : AlgEntryList) (id0 : Nat),
      ((parse_entries_new l id0).1.map (fun p => (p.1, p.2.algset)) =
        (parse_entries_draw l id0).1) ∧
      (parse_entries_new l id0).2 = (parse_entries_draw l id0).2 :=
  parse_entries_walks_agree

/-- Claim C5: on a pool holding exactly one algorithm, `get_scramble`
returns (for every random draw) the reverse traversal of that algorithm
with each move inverted, space-separated without a trailing separator;
on the algorithm `[R, U]` this is exactly the string of UP then RP. -/
theorem claim_C5_singleton_pool_scramble :
    (∀ (name : String) (e : Bool) (alg : List Movement) (k : Nat),
        get_scramble [{ name := name, algs := [alg], enabled := e }] k =
          some (render_scramble alg)) ∧
    (∀ (name : String) (e : Bool) (k : Nat),
        get_scramble [{ name := name, algs := [[Movement.R, Movement.U]], enabled := e }] k =
          some "U' R'") := by
  have base : ∀ (name : String) (e : Bool) (alg : List Movement) (k : Nat),
      get_scramble [{ name := name, algs := [alg], enabled := e }] k =
        some (render_scramble alg) := by
    intro name e alg k
    simp [get_scramble, Nat.mod_one]
  refine ⟨base, fun name e k => ?_⟩
  rw [base name e [Movement.R, Movement.U] k]
  rfl

/-- Claim C8: activating the Start identifier while no set is enabled
leaves the page in Setup with the selection map untouched (given that
the Start sentinel is not a key of the map, as the identifier scheme
guarantees for any reasonably small catalog). -/
theorem claim_C8_start_without_enabled_sets_is_noop :
    ∀ (m : AlgsetMap) (k : Nat),
      lookupInfo m START_BUTTON_ID = none →
      enabledSets m = [] →
      handle_activate (AppPage.Setup m) START_BUTTON_ID k = some (AppPage.Setup m) := by
  intro m k hlook hen
  simp [handle_activate, hlook, hen]

/-- A selection map with one disabled entry, used as a concrete witness
input. -/
def disabledMap : AlgsetMap :=
  [(0, { algset := sampleSet, enabled := false })]

/-- Witness for claim C8 at the concrete one-entry disabled map. -/
theorem claim_C8_witness :
    handle_activate (AppPage.Setup disabledMap) START_BUTTON_ID 0 =
      some (AppPage.Setup disabledMap) :=
  claim_C8_start_without_enabled_sets_is_noop disabledMap 0 (by decide) (by decide)

/-- Claim C1 (counterexample): with a single enabled set holding zero
algorithms the pool is empty, yet the Start activation is not a
Browsing-preserving no-op and no `EmptyPoolError` exists: `get_scramble`
panics (`choose(..).unwrap()` on an empty vector, modelled `none`) and
the panic escapes `handle_key`. -/
theorem claim_C1_counterexample :
    get_scramble [emptySet] 0 = none ∧
    handle_activate (AppPage.Setup emptyPoolMap) START_BUTTON_ID 0 = none ∧
    handle_activate (AppPage.Setup emptyPoolMap) START_BUTTON_ID 0 ≠
      some (AppPage.Setup emptyPoolMap) :=
  ⟨rfl, rfl, by decide⟩

/-- Claim C1 (amended): `get_scramble` on an empty combined pool has no
result (a panic), rather than a dedicated error; the transition guard
checks only that at least one set is enabled, so with zero enabled sets
the Start activation stays in Setup, while with enabled sets whose pool
is empty the generation panics instead of leaving the page in Setup. -/
theorem claim_C1_amended_empty_pool_behaviour :
    (∀ (sets : List AlgSet) (k : Nat),
        sets.flatMap (fun s => s.algs) = [] → get_scramble sets k = none) ∧
    (∀ (m : AlgsetMap) (k : Nat),
        lookupInfo m START_BUTTON_ID = none →
        (enabledSets m = [] →
          handle_activate (AppPage.Setup m) START_BUTTON_ID k =
            some (AppPage.Setup m)) ∧
        (enabledSets m ≠ [] →
          (enabledSets m).flatMap (fun s => s.algs) = [] →
          handle_activate (AppPage.Setup m) START_BUTTON_ID k = none)) := by
  constructor
  · intro sets k h
    simp [get_scramble, h]
  · intro m k hlook
    constructor
    · intro hen
      simp [handle_activate, hlook, hen]
    · intro hne hpool
      have hlen : 0 < (enabledSets m).length := List.length_pos.mpr hne
      simp [handle_activate, hlook, hlen, get_scramble, hpool]

/-- Witness for the amended claim C1 at the concrete one-entry enabled
map whose set holds zero algorithms. -/
theorem claim_C1_witness :
    get_scramble [emptySet] 1 = none ∧
    handle_activate (AppPage.Setup emptyPoolMap) START_BUTTON_ID 1 = none :=
  ⟨claim_C1_amended_empty_pool_behaviour.1 [emptySet] 1 (by decide),
   ((claim_C1_amended_empty_pool_behaviour.2 emptyPoolMap 1 (by decide)).2
      (by decide) (by decide))⟩

/-- `takeWhile` with the not-hash predicate stops exactly at the first
hash. -/
theorem takeWhile_hash_append (l1 l2 : List Char) (h : ∀ c ∈ l1, c ≠ '#') :
    (l1 ++ '#' :: l2).takeWhile (fun c => c ≠ '#') = l1 := by
  induction l1 with
  | nil =>
      rw [List.nil_append, List.takeWhile_cons, if_neg (by decide)]
  | cons c cs ih =>
      have hc : c ≠ '#' := h c (List.mem_cons_self c cs)
      rw [List.cons_append, List.takeWhile_cons, if_pos (decide_eq_true hc),
        ih (fun x hx => h x (List.mem_cons_of_mem c hx))]

/-- `takeWhile` with the not-hash predicate keeps a hash-free list
whole. -/
theorem takeWhile_hash_all (l1 : List Char) (h : ∀ c ∈ l1, c ≠ '#') :
    l1.takeWhile (fun c => c ≠ '#') = l1 := by
  induction l1 with
  | nil => rfl
  | cons c cs ih =>
      have hc : c ≠ '#' := h c (List.mem_cons_self c cs)
      rw [List.takeWhile_cons, if_pos (decide_eq_true hc),
        ih (fun x hx => h x (List.mem_cons_of_mem c hx))]

/-- Appending a hash-led comment does not change the stripped line. -/
theorem strip_line_append_comment (s t : String) (h : ∀ c ∈ s.toList, c ≠ '#') :
    strip_line (s ++ "#" ++ t) = strip_line s := by
  unfold strip_line
  have hdata : (s ++ "#" ++ t).toList = s.toList ++ '#' :: t.toList := by
    show (s ++ "#" ++ t).data = s.data ++ '#' :: t.data
    rw [String.data_append, String.data_append]
    simp
  rw [hdata, takeWhile_hash_append s.toList t.toList h, takeWhile_hash_all s.toList h]

/-- Claim C2: the per-line parsing operation strips the `#`-led trailing
comment before tokenizing (appending such a comment never changes the
result), and on the sample line it yields exactly `[R, U, RP]`. -/
theorem claim_C2_comment_stripping :
    (∀ (s t : String), (∀ c ∈ s.toList, c ≠ '#') →
        AlgSet.parse_line (s ++ "#" ++ t) = AlgSet.parse_line s) ∧
    AlgSet.parse_line "R U R' # comment" =
      .ok [Movement.R, Movement.U, Movement.RP] := by
  constructor
  · intro s t h
    unfold AlgSet.parse_line
    rw [strip_line_append_comment s t h]
  · rfl

/-- Witness for claim C2: dropping the comment of the sample line is
invisible to the parse. -/
theorem claim_C2_witness :
    AlgSet.parse_line ("R U R' " ++ "#" ++ " comment") = AlgSet.parse_line "R U R' " :=
  claim_C2_comment_stripping.1 "R U R' " " comment" (by decide)

/-- `parse_tokens` preserves the token count on success. -/
theorem parse_tokens_length :
    ∀ (toks : List (List Char)) (ms : List Movement),
      parse_tokens toks = .ok ms → ms.length = toks.length := by
  intro toks
  induction toks with
  | nil =>
      intro ms h
      simp only [parse_tokens, Except.ok.injEq] at h
      rw [← h]
      rfl
  | cons tk rest ih =>
      intro ms h
      simp only [parse_tokens] at h
      cases hft : Movement.from_text (String.mk tk) with
      | none => rw [hft] at h; exact absurd h (by simp)
      | some m =>
          rw [hft] at h
          cases hr : parse_tokens rest with
          | error e => rw [hr] at h; exact absurd h (by simp [Except.map])
          | ok tail =>
              rw [hr] at h
              simp only [Except.map, Except.ok.injEq] at h
              rw [← h]
              simp [ih tail hr]

/-- `splitChar` never returns the empty list of pieces. -/
theorem splitChar_ne_nil (sep : Char) (l : List Char) : splitChar sep l ≠ [] := by
  induction l with
  | nil => simp [splitChar]
  | cons c rest ih =>
      simp only [splitChar]
      by_cases hc : c = sep
      · simp [hc]
      · rw [if_neg hc]
        cases hr : splitChar sep rest with
        | nil => exact absurd hr ih
        | cons t ts => simp

/-- The space-split of a character list has no non-empty token exactly
when every character is the separator. -/
theorem splitChar_tokens_nil_iff (sep : Char) (l : List Char) :
    ((splitChar sep l).filter (fun t => 0 < t.length) = []) ↔ ∀ c ∈ l, c = sep := by
  induction l with
  | nil => simp [splitChar]
  | cons c rest ih =>
      simp only [splitChar]
      by_cases hc : c = sep
      · rw [if_pos hc]
        simp only [List.filter]
        constructor
        · intro h x hx
          rcases List.mem_cons.mp hx with h1 | h1
          · rw [h1, hc]
          · exact (ih.mp h) x h1
        · intro h
          exact ih.mpr (fun x hx => h x (List.mem_cons_of_mem c hx))
      · rw [if_neg hc]
        cases hr : splitChar sep rest with
        | nil => exact absurd hr (splitChar_ne_nil sep rest)
        | cons t ts =>
            simp only [List.filter_cons]
            rw [if_pos (by simp)]
            constructor
            · intro h; exact absurd h (by simp)
            · intro h; exact absurd (h c (List.mem_cons_self c rest)) hc

/-- A line with a character other than a space or a parenthesis parses
to a non-empty algorithm when it parses at all. -/
theorem parse_scramble_nonempty (text : String)
    (hch : ¬ ∀ c ∈ text.toList, c = ' ' ∨ c = '(' ∨ c = ')')
    (ms : List Movement) (h : AlgSet.parse_scramble text = .ok ms) :
    1 ≤ ms.length := by
  by_contra hlen
  have hzero : ms.length = 0 := by omega
  unfold AlgSet.parse_scramble at h
  have hlen2 := parse_tokens_length _ _ h
  have htoks :
      (splitChar ' ' (text.toList.filter (fun c => c ≠ '(' ∧ c ≠ ')'))).filter
        (fun t => 0 < t.length) = [] :=
    List.eq_nil_of_length_eq_zero (by rw [← hlen2, hzero])
  have hall := (splitChar_tokens_nil_iff ' ' _).mp htoks
  push_neg at hch
  obtain ⟨c, hcmem, hs, hop, hcl⟩ := hch
  have hcf : c ∈ text.toList.filter (fun c => c ≠ '(' ∧ c ≠ ')') :=
    List.mem_filter.mpr ⟨hcmem, by simp [hop, hcl]⟩
  exact hs (hall c hcf)

/-- The amendment's side condition: a line whose comment-stripped,
normalized text is not all spaces but contains only spaces and
parenthesis characters (the only shape that is stored as an empty
algorithm). -/
def parenBlankLine (line : String) : Bool :=
  ((strip_line line).toList.all (fun c => c = ' ' ∨ c = '(' ∨ c = ')')) &&
    !lineIsBlank (strip_line line)

/-- Every algorithm collected by the line loop from lines that are not
paren-blank has at least one move. -/
theorem load_lines_min_length :
    ∀ (lines : List String),
      (∀ line ∈ lines, parenBlankLine line = false) →
      ∀ (algs : List (List Movement)), load_lines lines = .ok algs →
      ∀ alg ∈ algs, 1 ≤ alg.length := by
  intro lines
  induction lines with
  | nil =>
      intro _ algs h alg halg
      simp only [load_lines, Except.ok.injEq] at h
      rw [← h] at halg
      exact absurd halg (List.not_mem_nil alg)
  | cons line rest ih =>
      intro hp algs h alg halg
      have hprest : ∀ l ∈ rest, parenBlankLine l = false :=
        fun l hl => hp l (List.mem_cons_of_mem line hl)
      simp only [load_lines] at h
      cases hb : lineIsBlank (strip_line line) with
      | true =>
          rw [hb] at h
          simp only [if_true] at h
          exact ih hprest algs h alg halg
      | false =>
          rw [hb] at h
          simp only [Bool.false_eq_true, if_false] at h
          cases hps : AlgSet.parse_scramble (strip_line line) with
          | error e => rw [hps] at h; exact absurd h (by simp)
          | ok s =>
              rw [hps] at h
              cases hll : load_lines rest with
              | error e => rw [hll] at h; exact absurd h (by simp)
              | ok tail =>
                  rw [hll] at h
                  simp only [Except.ok.injEq] at h
                  rw [← h] at halg
                  rcases List.mem_cons.mp halg with h1 | h1
                  · have hpb := hp line (List.mem_cons_self line rest)
                    unfold parenBlankLine at hpb
                    rw [hb] at hpb
                    simp only [Bool.not_false, Bool.and_true] at hpb
                    have hch : ¬ ∀ c ∈ (strip_line line).toList,
                        c = ' ' ∨ c = '(' ∨ c = ')' := by
                      intro hcontra
                      rw [List.all_eq_true.mpr (fun x hx => decide_eq_true (hcontra x hx))] at hpb
                      exact absurd hpb (by simp)
                    rw [h1]
                    exact parse_scramble_nonempty (strip_line line) hch s hps
                  · exact ih hprest tail hll alg h1

/-- The line loop stores nothing when every line is blank after comment
stripping. -/
theorem load_lines_all_blank :
    ∀ (lines : List String),
      (∀ line ∈ lines, lineIsBlank (strip_line line) = true) →
      load_lines lines = .ok [] := by
  intro lines
  induction lines with
  | nil => intro _; rfl
  | cons line rest ih =>
      intro h
      simp only [load_lines]
      rw [h line (List.mem_cons_self line rest)]
      simp only [if_true]
      exact ih (fun l hl => h l (List.mem_cons_of_mem line hl))

/-- Claim C4 (counterexample): loading the one-line text `"()"` succeeds
and stores an algorithm of length 0 — the line is not whitespace by the
loader's test (parentheses are not spaces), yet every one of its tokens
vanishes when the parenthesis characters are dropped. -/
theorem claim_C4_counterexample :
    AlgSet.load_from_text "s" "()" =
      .ok { name := "s", algs := [[]], enabled := true } ∧
    ¬ ∀ alg ∈ ({ name := "s", algs := [[]], enabled := true } : AlgSet).algs,
        1 ≤ alg.length :=
  ⟨rfl, by decide⟩

/-- Claim C4 (amended): every stored algorithm has length ≥ 1 provided
no line of the source consists, after comment stripping, of only spaces
and parentheses with at least one parenthesis (such paren-blank lines
are stored as empty algorithms); blank and comment-only lines are
skipped rather than stored. -/
theorem claim_C4_amended_min_length :
    (∀ (name text : String) (s : AlgSet),
        (∀ line ∈ rustLines text, parenBlankLine line = false) →
        AlgSet.load_from_text name text = .ok s →
        ∀ alg ∈ s.algs, 1 ≤ alg.length) ∧
    (∀ (name text : String),
        (∀ line ∈ rustLines text, lineIsBlank (strip_line line) = true) →
        AlgSet.load_from_text name text =
          .ok { name := name, algs := [], enabled := true }) := by
  constructor
  · intro name text s hl h
    unfold AlgSet.load_from_text at h
    cases hll : load_lines (rustLines text) with
    | error e => rw [hll] at h; exact absurd h (by simp)
    | ok algs =>
        rw [hll] at h
        simp only [Except.ok.injEq] at h
        subst h
        intro alg halg
        exact load_lines_min_length (rustLines text) hl algs hll alg halg
  · intro name text hbl
    unfold AlgSet.load_from_text
    rw [load_lines_all_blank (rustLines text) hbl]

/-- Witness for the amended claim C4 on the one-line text of two
moves. -/
theorem claim_C4_witness :
    1 ≤ ([Movement.R, Movement.U] : List Movement).length :=
  claim_C4_amended_min_length.1 "a" "R U"
    { name := "a", algs := [[Movement.R, Movement.U]], enabled := true }
    (by decide) rfl [Movement.R, Movement.U] (by decide)

/-- Witness for claim C9: the fixture catalog's only leaf entry is
disabled in the built map, while the loaded fixture set is enabled. -/
theorem claim_C9_witness :
    ((1, { algset := sampleSet, enabled := false }) : Nat × AlgInfo).2.enabled = false ∧
    ({ name := "a", algs := [[Movement.R]], enabled := true } : AlgSet).enabled = true :=
  ⟨claim_C9_initial_selection_disabled.1 sampleTree 0
      (1, { algset := sampleSet, enabled := false }) (by decide),
   claim_C9_initial_selection_disabled.2 "a" "R"
      { name := "a", algs := [[Movement.R]], enabled := true } rfl⟩
